import Mathlib

/-!
# Throttling stress publisher (`internal/stress/throttling/throttling.go`)

A shallow embedding of `createEventBatch` and `sendMessages`.

* The generate phase is sequential Go code: it is embedded as pure functions that
  thread the `*int64` cursor explicitly (`int64` arithmetic wraps modulo `2^64`).
* The dispatch phase is concurrent (one goroutine per batch, a `sync.WaitGroup`
  and an atomically incremented counter): it is embedded as a step function over
  an explicit state, one atomic action per step, scheduled by a list of actions.
-/

namespace Throttling

/-! ## Machine integers -/

/-- Two's-complement wrap-around of a mathematical integer into the `int64` range. -/
def wrapInt64 (x : Int) : Int := (x + 2 ^ 63) % 2 ^ 64 - 2 ^ 63

/-! ## Data model -/

/-- Modelled from the spec: the `eventhub.Event` type is declared outside `src/`.
"opaque byte payload ... plus a property map" with string keys; the only property
value the program stores is an `int64`. -/
structure Event where
  Data : List Nat
  Properties : List (String × Int)
deriving DecidableEq, Repr

/-- Modelled from the spec: the `eventhub.BatchIterator` built by
`eventhub.NewEventBatchIterator`, declared outside `src/`. "an ordered, finite
sequence of Events". -/
structure BatchIterator where
  events : List Event
deriving DecidableEq, Repr

/-- Modelled from the spec: `eventhub.NewEventBatchIterator(events...)`, declared
outside `src/`: "a batch representation constructible from an ordered sequence of
events". -/
def NewEventBatchIterator (events : List Event) : BatchIterator := ⟨events⟩

/-- Value stored under the key `testId` in the property map of an event, if any. -/
def Event.testId (e : Event) : Option Int := e.Properties.lookup "testId"

/-- The `testId` values carried by the events of a batch, in batch order. -/
def BatchIterator.testIds (b : BatchIterator) : List (Option Int) :=
  b.events.map Event.testId

/-! ## `createEventBatch` -/

/-- Go `var data = [1024]byte{1}`: 1024 bytes, the first is `1`, the rest are `0`. -/
def data : List Nat := 1 :: List.replicate 1023 0

/-- Go `batchSize := 880`. -/
def batchSize : Nat := 880

/-- The body of `for i := 0; i < batchSize; i++`, run for the `n` iterations that
remain: append an event carrying `*testId`, then `*testId++`. -/
def createEventBatchLoop : Nat → List Event → Int → List Event × Int
  | 0, events, testId => (events, testId)
  | n + 1, events, testId =>
    createEventBatchLoop n
      (events ++ [{ Data := data, Properties := [("testId", testId)] }])
      (wrapInt64 (testId + 1))

/-- Go `createEventBatch(testId *int64)`: returns the batch and the value left in
`*testId`. -/
def createEventBatch (testId : Int) : BatchIterator × Int :=
  let r := createEventBatchLoop batchSize [] testId
  (NewEventBatchIterator r.1, r.2)

/-! ## Generate phase of `sendMessages` -/

/-- The body of `for i := 0; i < 10; i++ { batches = append(batches,
createEventBatch(&nextTestId)) }`, run for the `n` iterations that remain. -/
def generateLoop : Nat → List BatchIterator → Int → List BatchIterator × Int
  | 0, batches, nextTestId => (batches, nextTestId)
  | n + 1, batches, nextTestId =>
    let r := createEventBatch nextTestId
    generateLoop n (batches ++ [r.1]) r.2

/-- Number of batches built by `sendMessages` (`i < 10`). -/
def batchCount : Nat := 10

/-- Lines 37-44 of `sendMessages`: `nextTestId := int64(0)` and the generate loop.
Returns `batches` and the final `nextTestId`. -/
def generate : List BatchIterator × Int := generateLoop batchCount [] 0

/-- All events of a batch set, in batch order. -/
def allEvents (batches : List BatchIterator) : List Event :=
  batches.flatMap BatchIterator.events

/-! ## Dispatch phase of `sendMessages`: data -/

/-- Modelled from the spec: `context.Context` as returned by `context.WithTimeout`,
declared outside `src/`: "one cancellation context bound to a wall-clock deadline".
Only the configured timeout, in nanoseconds, is recorded. -/
structure Context where
  timeout : Nat
deriving DecidableEq, Repr

/-- Go `time.Minute`, in nanoseconds. -/
def Minute : Nat := 60 * 1000000000

/-- Modelled from the spec: the `eventhub.Hub` handle, declared outside `src/`. Only
`SendBatch` is used: "`sendBatch(context-with-deadline, Batch) -> error` — transmits
one batch"; `none` is Go's `nil` error, `some msg` an error with text `msg`. -/
structure Hub where
  SendBatch : Context → BatchIterator → Option String

/-- Program counter of one goroutine `func(idx int, batch eventhub.BatchIterator)`,
named after the source line it executes next. -/
inductive TaskPc where
  /-- Line 59: about to call `hub.SendBatch(ctx, batch)`. -/
  | l59
  /-- Line 61: `err` holds the result of the send; about to test `err != nil`. -/
  | l61 (err : Option String)
  /-- Line 65: about to call `wg.Done()`. -/
  | l65
  /-- Line 66: about to call `atomic.AddInt64(&totalBatches, 1)`. -/
  | l66
  /-- Line 67: about to call `log.Printf`. -/
  | l67
  /-- The goroutine has returned. -/
  | finished
deriving DecidableEq, Repr

/-- One goroutine launched by line 58, with its arguments. -/
structure Task where
  idx : Nat
  batch : BatchIterator
  pc : TaskPc
deriving DecidableEq, Repr

/-- Program counter of the goroutine running `sendMessages`, from line 55 on. -/
inductive MainPc where
  /-- Line 55: head of `for i, batch := range batches`, at index `i`. -/
  | loop (i : Nat)
  /-- Line 58: `wg.Add(1)` is done; about to run the `go` statement with `(i, batch)`. -/
  | spawn (i : Nat) (batch : BatchIterator)
  /-- Line 71: blocked in `wg.Wait()`. -/
  | wait
  /-- Line 73: `wg.Wait()` has returned; about to `return nextTestId - 1`. -/
  | ret
  /-- `sendMessages` has returned the value `v`. -/
  | returned (v : Int)
deriving DecidableEq, Repr

/-- Whether the process is still running. -/
inductive Status where
  | running
  /-- `log.Fatalf` was called: the message was logged and the process exited. -/
  | fatal (msg : String)
  /-- `wg.Done()` drove the WaitGroup counter negative. -/
  | panicked
deriving DecidableEq, Repr

/-- State of a run of `sendMessages` after the generate phase. `sent` is the history
of the calls made to `hub.SendBatch`, oldest first. -/
structure State where
  hub : Hub
  batches : List BatchIterator
  nextTestId : Int
  ctx : Context
  main : MainPc
  wg : Int
  totalBatches : Int
  tasks : List Task
  sent : List (Context × BatchIterator)
  status : Status

/-- A scheduling decision: which goroutine performs its next atomic action. -/
inductive Action where
  | main
  | task (k : Nat)
deriving DecidableEq, Repr

/-! ## Dispatch phase of `sendMessages`: steps -/

/-- State of `sendMessages(hub)` when line 55 is reached: the batches are built
(lines 37-44), `ctx` is created (line 46), `wg` and `totalBatches` are zero. -/
def sendMessagesInit (hub : Hub) : State :=
  let g := generate
  { hub := hub
    batches := g.1
    nextTestId := g.2
    ctx := { timeout := Minute * 2 }
    main := .loop 0
    wg := 0
    totalBatches := 0
    tasks := []
    sent := []
    status := .running }

/-- One atomic action of the goroutine running `sendMessages` (lines 55-73).
`none`: the goroutine cannot move (blocked in `wg.Wait()`, or it has returned). -/
def stepMain (s : State) : Option State :=
  match s.main with
  | .loop i =>
    match s.batches[i]? with
    | some batch => some { s with wg := s.wg + 1, main := .spawn i batch }
    | none => some { s with main := .wait }
  | .spawn i batch =>
    some { s with tasks := s.tasks ++ [{ idx := i, batch := batch, pc := .l59 }],
                  main := .loop (i + 1) }
  | .wait => if s.wg = 0 then some { s with main := .ret } else none
  | .ret => some { s with main := .returned (wrapInt64 (s.nextTestId - 1)) }
  | .returned _ => none

/-- One atomic action of the `k`-th launched goroutine (lines 59-67).
`none`: there is no such goroutine, or it has returned. -/
def stepTask (s : State) (k : Nat) : Option State :=
  match s.tasks[k]? with
  | none => none
  | some t =>
    match t.pc with
    | .l59 =>
      some { s with tasks := s.tasks.set k { t with pc := .l61 (s.hub.SendBatch s.ctx t.batch) },
                    sent := s.sent ++ [(s.ctx, t.batch)] }
    | .l61 (some e) => some { s with status := .fatal ("ERROR sending batch: " ++ e) }
    | .l61 none => some { s with tasks := s.tasks.set k { t with pc := .l65 } }
    | .l65 =>
      if s.wg - 1 < 0 then some { s with status := .panicked }
      else some { s with wg := s.wg - 1, tasks := s.tasks.set k { t with pc := .l66 } }
    | .l66 =>
      some { s with totalBatches := wrapInt64 (s.totalBatches + 1),
                    tasks := s.tasks.set k { t with pc := .l67 } }
    | .l67 => some { s with tasks := s.tasks.set k { t with pc := .finished } }
    | .finished => none

/-- One scheduled action. After `log.Fatalf` or a panic the process is gone and
nothing moves. -/
def step (s : State) (a : Action) : Option State :=
  match s.status with
  | .running =>
    match a with
    | .main => stepMain s
    | .task k => stepTask s k
  | _ => none

/-- Run a schedule from a state; `none` if some scheduled action is not enabled. -/
def run : List Action → State → Option State
  | [], s => some s
  | a :: as, s =>
    match step s a with
    | some s' => run as s'
    | none => none

/-- The dispatch phase of `sendMessages(hub)` under the schedule `sched`. -/
def sendMessages (hub : Hub) (sched : List Action) : Option State :=
  run sched (sendMessagesInit hub)

/-- A state is stuck when no goroutine can move: the run has ended. -/
def State.stuck (s : State) : Prop := ∀ a, step s a = none

/-- The value returned by `sendMessages`, once it has returned. -/
def State.result (s : State) : Option Int :=
  match s.main with
  | .returned v => some v
  | _ => none

/-- The goroutine has called `wg.Done()`. -/
def Task.done (t : Task) : Bool :=
  match t.pc with
  | .l66 | .l67 | .finished => true
  | _ => false

/-- The goroutine has executed `atomic.AddInt64(&totalBatches, 1)`. -/
def Task.counted (t : Task) : Bool :=
  match t.pc with
  | .l67 | .finished => true
  | _ => false

/-- The goroutine has called `hub.SendBatch`. -/
def Task.hasSent (t : Task) : Bool :=
  match t.pc with
  | .l59 => false
  | _ => true

/-- The call to `hub.SendBatch` made by the goroutine returned a `nil` error. -/
def Task.sentOk (t : Task) : Bool :=
  match t.pc with
  | .l59 => false
  | .l61 (some _) => false
  | _ => true

/-- A hub whose `SendBatch` always succeeds. -/
def okHub : Hub := { SendBatch := fun _ _ => none }

/-- A hub whose `SendBatch` always fails, as a throttling backend would. -/
def throttledHub : Hub := { SendBatch := fun _ _ => some "server busy" }

/-- Schedule: the main goroutine launches all ten goroutines and reaches
`wg.Wait()` (21 actions). -/
def launchAll : List Action := List.replicate 21 Action.main

/-- Schedule: goroutine `k` sends, tests `err` and calls `wg.Done()`. -/
def upToDone (k : Nat) : List Action := List.replicate 3 (Action.task k)

/-- Schedule: goroutine `k` runs from its start to its end. -/
def wholeTask (k : Nat) : List Action := List.replicate 5 (Action.task k)

/-- Schedule in which every goroutine stops right after `wg.Done()`, then
`wg.Wait()` returns and `sendMessages` returns. -/
def earlyReturn : List Action :=
  launchAll ++ (List.range 10).flatMap upToDone ++ [Action.main, Action.main]

/-- Schedule in which the goroutines run to their end in reverse launch order, then
`sendMessages` returns. -/
def fullRun : List Action :=
  launchAll ++ (List.range 10).reverse.flatMap wholeTask ++ [Action.main, Action.main]

/-- Schedule: all goroutines are launched, then the third one (index 2) sends and
tests `err`. -/
def thirdFails : List Action := launchAll ++ [Action.task 2, Action.task 2]

/-- Schedule: all goroutines are launched, then the first one runs up to and
including `wg.Done()`. -/
def firstDone : List Action := launchAll ++ upToDone 0

/-- State reached by `fullRun` on `okHub`. -/
def fullRunState : State := (sendMessages okHub fullRun).getD (sendMessagesInit okHub)

/-- State reached by `thirdFails` on `throttledHub`. -/
def thirdFailsState : State :=
  (sendMessages throttledHub thirdFails).getD (sendMessagesInit throttledHub)

/-- State reached by `firstDone` on `okHub`. -/
def firstDoneState : State := (sendMessages okHub firstDone).getD (sendMessagesInit okHub)

/-- State reached by `launchAll` on `throttledHub`. -/
def launchedState : State :=
  (sendMessages throttledHub launchAll).getD (sendMessagesInit throttledHub)

/-- State reached by `earlyReturn` on `okHub`. -/
def earlyReturnState : State :=
  (sendMessages okHub earlyReturn).getD (sendMessagesInit okHub)

/-! ## Dispatch phase of `sendMessages`: invariant and measure -/

/-- Calls of `wg.Add(1)` whose `go` statement has not run yet. -/
def MainPc.pendingAdd : MainPc → Int
  | .spawn _ _ => 1
  | _ => 0

/-- The main goroutine is past `wg.Wait()`. -/
def MainPc.pastWait : MainPc → Bool
  | .ret | .returned _ => true
  | _ => false

/-- Invariant of the dispatch phase of `sendMessages`, relating a state `s` to the
state `s0` in which line 55 was first reached. -/
structure Inv (s0 s : State) : Prop where
  hub_eq : s.hub = s0.hub
  batches_eq : s.batches = s0.batches
  len_ok : s.batches.length < 2 ^ 63
  next_eq : s.nextTestId = s0.nextTestId
  ctx_eq : s.ctx = { timeout := Minute * 2 }
  tasks_batch : s.tasks.map Task.batch = s.batches.take s.tasks.length
  tasks_idx : s.tasks.map Task.idx = List.range s.tasks.length
  main_loop : ∀ i, s.main = .loop i → i = s.tasks.length ∧ i ≤ s.batches.length
  main_spawn : ∀ i b, s.main = .spawn i b → i = s.tasks.length ∧ s.batches[i]? = some b
  main_rest : (∀ i, s.main ≠ .loop i) → (∀ i b, s.main ≠ .spawn i b) →
    s.tasks.length = s.batches.length
  wg_eq : s.wg = (s.tasks.length : Int) + s.main.pendingAdd - (s.tasks.countP Task.done : Nat)
  cnt_eq : s.totalBatches = (s.tasks.countP Task.counted : Nat)
  past_wait : s.main.pastWait = true → ∀ t ∈ s.tasks, t.done = true
  ret_val : ∀ v, s.main = .returned v → v = wrapInt64 (s.nextTestId - 1)
  err_eq : ∀ t ∈ s.tasks, ∀ e, t.pc = .l61 e → e = s.hub.SendBatch s.ctx t.batch
  err_ok : ∀ t ∈ s.tasks, t.sentOk = true → s.hub.SendBatch s.ctx t.batch = none
  sent_perm : List.Perm s.sent ((s.tasks.filter Task.hasSent).map (fun t => (s.ctx, t.batch)))
  not_panicked : s.status ≠ .panicked
  fatal_msg : ∀ msg, s.status = .fatal msg →
    ∃ t ∈ s.tasks, ∃ e, t.pc = .l61 (some e) ∧ msg = "ERROR sending batch: " ++ e

/-- Number of actions a goroutine at this program counter still has to perform. -/
def TaskPc.rank : TaskPc → Nat
  | .l59 => 5
  | .l61 _ => 4
  | .l65 => 3
  | .l66 => 2
  | .l67 => 1
  | .finished => 0

/-- Bound on the actions still to come from the main goroutine and from the
goroutines it has yet to launch, for a batch set of `n` batches. -/
def MainPc.rank (n : Nat) : MainPc → Nat
  | .loop i => 7 * (n - i) + 3
  | .spawn i _ => 7 * (n - i) + 2
  | .wait => 2
  | .ret => 1
  | .returned _ => 0

/-- One while the process runs, zero once it is gone. -/
def Status.rank : Status → Nat
  | .running => 1
  | _ => 0

/-- Bound on the number of actions a run can still perform. -/
def State.measure (s : State) : Nat :=
  s.status.rank + s.main.rank s.batches.length + (s.tasks.map (fun t => t.pc.rank)).sum

/-! ## Generate phase: lemmas -/

theorem wrapInt64_of_range (x : Int) (h1 : -2 ^ 63 ≤ x) (h2 : x ≤ 2 ^ 63 - 1) :
    wrapInt64 x = x := by
  unfold wrapInt64
  rw [Int.emod_eq_of_lt (by omega) (by omega)]
  omega

theorem createEventBatchLoop_length (n : Nat) (events : List Event) (c : Int) :
    (createEventBatchLoop n events c).1.length = events.length + n := by
  induction n generalizing events c with
  | zero => simp [createEventBatchLoop]
  | succ n ih => simp [createEventBatchLoop, ih]; omega

theorem createEventBatchLoop_forall (P : Event → Prop)
    (hP : ∀ v, P { Data := data, Properties := [("testId", v)] })
    (n : Nat) (events : List Event) (c : Int) (h : ∀ e ∈ events, P e) :
    ∀ e ∈ (createEventBatchLoop n events c).1, P e := by
  induction n generalizing events c with
  | zero => simpa [createEventBatchLoop] using h
  | succ n ih =>
    simp only [createEventBatchLoop]
    apply ih
    intro e he
    rcases List.mem_append.1 he with h1 | h1
    · exact h e h1
    · simp at h1; subst h1; exact hP _

theorem createEventBatchLoop_ids (n : Nat) (events : List Event) (c : Int)
    (h1 : -2 ^ 63 ≤ c) (h2 : c + n ≤ 2 ^ 63 - 1) :
    (createEventBatchLoop n events c).1.map Event.testId
        = events.map Event.testId ++ (List.range n).map (fun (k : Nat) => some (c + (k : Int)))
      ∧ (createEventBatchLoop n events c).2 = c + n := by
  induction n generalizing events c with
  | zero => simp [createEventBatchLoop]
  | succ n ih =>
    simp only [createEventBatchLoop]
    have hw : wrapInt64 (c + 1) = c + 1 := wrapInt64_of_range _ (by omega) (by push_cast at h2; omega)
    rw [hw]
    obtain ⟨ih1, ih2⟩ := ih (events ++ [{ Data := data, Properties := [("testId", c)] }]) (c + 1)
      (by omega) (by push_cast at h2 ⊢; omega)
    refine ⟨?_, by rw [ih2]; push_cast; ring⟩
    rw [ih1, List.range_succ_eq_map]
    simp [Event.testId, List.lookup, Function.comp_def]
    intro a _
    ring

theorem createEventBatch_ids (c : Int) (h1 : -2 ^ 63 ≤ c) (h2 : c + 880 ≤ 2 ^ 63 - 1) :
    (createEventBatch c).1.testIds = (List.range 880).map (fun (k : Nat) => some (c + (k : Int)))
      ∧ (createEventBatch c).2 = c + 880 := by
  have h := createEventBatchLoop_ids 880 [] c h1 (by push_cast; omega)
  simpa [createEventBatch, BatchIterator.testIds, NewEventBatchIterator, batchSize] using h

theorem allEvents_append (bs cs : List BatchIterator) :
    allEvents (bs ++ cs) = allEvents bs ++ allEvents cs := by
  simp [allEvents]

theorem generateLoop_length (n : Nat) (batches : List BatchIterator) (c : Int) :
    (generateLoop n batches c).1.length = batches.length + n := by
  induction n generalizing batches c with
  | zero => simp [generateLoop]
  | succ n ih => simp [generateLoop, ih]; omega

theorem shift_block (L : List Nat) (c : Int) (i : Nat) :
    L.map (fun (j : Nat) => some (c + 880 + 880 * (i : Int) + (j : Int)))
      = ((fun (i : Nat) => L.map (fun (j : Nat) => some (c + 880 * (i : Int) + (j : Int))))
          ∘ Nat.succ) i := by
  simp only [Function.comp_apply, Nat.succ_eq_add_one, Nat.cast_add, Nat.cast_one]
  apply List.map_congr_left
  intro j _
  congr 1
  ring

theorem generateLoop_ids (n : Nat) (batches : List BatchIterator) (c : Int)
    (h1 : -2 ^ 63 ≤ c) (h2 : c + 880 * n ≤ 2 ^ 63 - 1) :
    (generateLoop n batches c).1.map BatchIterator.testIds
        = batches.map BatchIterator.testIds
          ++ (List.range n).map (fun (i : Nat) =>
              (List.range 880).map (fun (j : Nat) => some (c + 880 * (i : Int) + (j : Int))))
      ∧ (generateLoop n batches c).2 = c + 880 * n := by
  induction n generalizing batches c with
  | zero => simp [generateLoop]
  | succ n ih =>
    simp only [generateLoop]
    obtain ⟨hb, hc⟩ := createEventBatch_ids c h1 (by push_cast at h2; omega)
    rw [hc]
    obtain ⟨ih1, ih2⟩ := ih (batches ++ [(createEventBatch c).1]) (c + 880)
      (by omega) (by push_cast at h2 ⊢; omega)
    refine ⟨?_, by rw [ih2]; push_cast; ring⟩
    rw [ih1, List.range_succ_eq_map n, List.map_append, List.map_cons, List.map_nil, List.map_cons,
      List.map_map, List.append_assoc, hb, List.singleton_append]
    have e0 : (fun (k : Nat) => some (c + (k : Int)))
        = (fun (j : Nat) => some (c + 880 * ((0 : Nat) : Int) + (j : Int))) := by
      funext k; simp only [Nat.cast_zero, mul_zero, add_zero]
    have e1 : (fun (i : Nat) =>
          (List.range 880).map (fun (j : Nat) => some (c + 880 + 880 * (i : Int) + (j : Int))))
        = (fun (i : Nat) =>
          (List.range 880).map (fun (j : Nat) => some (c + 880 * (i : Int) + (j : Int)))) ∘ Nat.succ := by
      funext i
      exact shift_block (List.range 880) c i
    rw [e0, e1]

theorem flatten_blocks (m : Nat) (n : Nat) :
    ((List.range n).map (fun (i : Nat) =>
        (List.range m).map (fun (j : Nat) => some ((m : Int) * (i : Int) + (j : Int))))).flatten
      = (List.range (m * n)).map (fun (k : Nat) => some (k : Int)) := by
  induction n with
  | zero => simp
  | succ n ih =>
    rw [List.range_succ, List.map_append, List.flatten_append, ih, Nat.mul_succ, List.range_add,
      List.map_append, List.map_map]
    simp only [List.map_cons, List.map_nil, List.flatten_cons, List.flatten_nil, List.append_nil]
    congr 1

/-! ## Replacing one element of a list -/

theorem map_set_same {α β : Type} (f : α → β) (l : List α) (k : Nat) (t t' : α)
    (h : l[k]? = some t) (hf : f t' = f t) : (l.set k t').map f = l.map f := by
  induction l generalizing k with
  | nil => simp
  | cons a l ih =>
    cases k with
    | zero =>
      simp only [List.getElem?_cons_zero, Option.some.injEq] at h
      subst h
      simp [hf]
    | succ k =>
      simp only [List.getElem?_cons_succ] at h
      simp [ih k h]

theorem countP_set_same {α : Type} (p : α → Bool) (l : List α) (k : Nat) (t t' : α)
    (h : l[k]? = some t) (hp : p t' = p t) : (l.set k t').countP p = l.countP p := by
  induction l generalizing k with
  | nil => simp
  | cons a l ih =>
    cases k with
    | zero =>
      simp only [List.getElem?_cons_zero, Option.some.injEq] at h
      subst h
      simp [List.countP_cons, hp]
    | succ k =>
      simp only [List.getElem?_cons_succ] at h
      simp [List.countP_cons, ih k h]

theorem countP_set_gain {α : Type} (p : α → Bool) (l : List α) (k : Nat) (t t' : α)
    (h : l[k]? = some t) (hp : p t = false) (hp' : p t' = true) :
    (l.set k t').countP p = l.countP p + 1 := by
  induction l generalizing k with
  | nil => simp at h
  | cons a l ih =>
    cases k with
    | zero =>
      simp only [List.getElem?_cons_zero, Option.some.injEq] at h
      subst h
      simp [List.countP_cons, hp, hp']
    | succ k =>
      simp only [List.getElem?_cons_succ] at h
      simp [List.countP_cons, ih k h]
      omega

theorem countP_set_eq {α : Type} (p : α → Bool) (l : List α) (k : Nat) (t t' : α)
    (h : l[k]? = some t) :
    (l.set k t').countP p + (if p t = true then 1 else 0)
      = l.countP p + (if p t' = true then 1 else 0) := by
  induction l generalizing k with
  | nil => simp at h
  | cons a l ih =>
    cases k with
    | zero =>
      simp only [List.getElem?_cons_zero, Option.some.injEq] at h
      subst h
      simp only [List.set_cons_zero, List.countP_cons]
      omega
    | succ k =>
      simp only [List.getElem?_cons_succ] at h
      have := ih k h
      simp only [List.set_cons_succ, List.countP_cons]
      omega

theorem filter_map_set_same {α β : Type} (p : α → Bool) (g : α → β) (l : List α) (k : Nat)
    (t t' : α) (h : l[k]? = some t) (hp : p t' = p t) (hg : g t' = g t) :
    ((l.set k t').filter p).map g = (l.filter p).map g := by
  induction l generalizing k with
  | nil => simp
  | cons a l ih =>
    cases k with
    | zero =>
      simp only [List.getElem?_cons_zero, Option.some.injEq] at h
      subst h
      cases hpa : p a <;> simp [List.filter_cons, hp, hpa, hg]
    | succ k =>
      simp only [List.getElem?_cons_succ] at h
      cases hpa : p a <;> simp [List.filter_cons, hpa, ih k h]

theorem filter_map_set_gain {α β : Type} (p : α → Bool) (g : α → β) (l : List α) (k : Nat)
    (t t' : α) (h : l[k]? = some t) (hp : p t = false) (hp' : p t' = true) :
    List.Perm (((l.set k t').filter p).map g) (g t' :: (l.filter p).map g) := by
  induction l generalizing k with
  | nil => simp at h
  | cons a l ih =>
    cases k with
    | zero =>
      simp only [List.getElem?_cons_zero, Option.some.injEq] at h
      subst h
      simp [List.filter_cons, hp, hp']
    | succ k =>
      simp only [List.getElem?_cons_succ] at h
      cases hpa : p a
      · simpa [List.filter_cons, hpa] using ih k h
      · simp only [List.set_cons_succ, List.filter_cons, hpa, if_true, List.map_cons]
        exact ((ih k h).cons (g a)).trans (List.Perm.swap _ _ _)

theorem sum_map_set {α : Type} (r : α → Nat) (l : List α) (k : Nat) (t t' : α)
    (h : l[k]? = some t) : ((l.set k t').map r).sum + r t = (l.map r).sum + r t' := by
  induction l generalizing k with
  | nil => simp at h
  | cons a l ih =>
    cases k with
    | zero =>
      simp only [List.getElem?_cons_zero, Option.some.injEq] at h
      subst h
      simp
      omega
    | succ k =>
      simp only [List.getElem?_cons_succ] at h
      have := ih k h
      simp only [List.set_cons_succ, List.map_cons, List.sum_cons]
      omega

theorem exists_of_countP_lt {α : Type} (p : α → Bool) (l : List α) (h : l.countP p < l.length) :
    ∃ (k : Nat) (t : α), l[k]? = some t ∧ p t = false := by
  have hne : ¬ (∀ a ∈ l, p a = true) := fun hall => by
    have := (List.countP_eq_length (p := p) (l := l)).2 hall
    omega
  push_neg at hne
  obtain ⟨a, ha, hpa⟩ := hne
  obtain ⟨k, hk⟩ := List.mem_iff_getElem?.1 ha
  exact ⟨k, a, hk, by simpa using hpa⟩

theorem countP_lt_of_getElem? {α : Type} (p : α → Bool) (l : List α) (k : Nat) (t : α)
    (h : l[k]? = some t) (hp : p t = false) : l.countP p < l.length := by
  have h1 : l.countP p ≤ l.length := List.countP_le_length p
  rcases Nat.lt_or_ge (l.countP p) l.length with h2 | h2
  · exact h2
  · have h3 : l.countP p = l.length := by omega
    have := (List.countP_eq_length (p := p) (l := l)).1 h3 t (List.getElem?_mem h)
    simp [hp] at this

/-! ## The invariant holds in every reachable state -/

theorem generate_spec :
    generate.1.map BatchIterator.testIds
        = (List.range 10).map (fun (i : Nat) =>
            (List.range 880).map (fun (j : Nat) => some (880 * (i : Int) + (j : Int))))
      ∧ generate.2 = 8800 ∧ generate.1.length = 10 := by
  obtain ⟨h1, h2⟩ := generateLoop_ids 10 [] 0 (by norm_num) (by norm_num)
  refine ⟨?_, ?_, ?_⟩
  · simpa [generate, batchCount] using h1
  · simpa [generate, batchCount] using h2
  · simp [generate, batchCount, generateLoop_length]

theorem init_batches (hub : Hub) : (sendMessagesInit hub).batches = generate.1 := by
  simp only [sendMessagesInit]

theorem init_nextTestId (hub : Hub) : (sendMessagesInit hub).nextTestId = generate.2 := by
  simp only [sendMessagesInit]

theorem init_ctx (hub : Hub) : (sendMessagesInit hub).ctx = { timeout := Minute * 2 } := by
  simp only [sendMessagesInit]

theorem init_hub (hub : Hub) : (sendMessagesInit hub).hub = hub := by
  simp only [sendMessagesInit]

theorem inv_init (hub : Hub) : Inv (sendMessagesInit hub) (sendMessagesInit hub) := by
  have hlen : generate.1.length < 2 ^ 63 := by rw [generate_spec.2.2]; norm_num
  unfold sendMessagesInit
  revert hlen
  generalize generate = g
  intro hlen
  constructor <;> first | exact hlen | simp [MainPc.pendingAdd, MainPc.pastWait]

theorem Inv.length_le {s0 s : State} (h : Inv s0 s) :
    s.tasks.length ≤ s.batches.length := by
  have := congrArg List.length h.tasks_batch
  simp only [List.length_map, List.length_take] at this
  omega

theorem inv_stepMain {s0 s s' : State} (h : Inv s0 s) (hs : stepMain s = some s') :
    Inv s0 s' := by
  have hlen := h.length_le
  unfold stepMain at hs
  split at hs
  · rename_i i hm
    obtain ⟨hi, hle⟩ := h.main_loop i hm
    have hwg := h.wg_eq
    rw [hm] at hwg
    split at hs
    · rename_i b hb
      injection hs with hs; subst hs
      refine ⟨h.hub_eq, h.batches_eq, h.len_ok, h.next_eq, h.ctx_eq, h.tasks_batch, h.tasks_idx,
        ?_, ?_, ?_, ?_, h.cnt_eq, ?_, ?_, h.err_eq, h.err_ok, h.sent_perm, h.not_panicked,
        h.fatal_msg⟩
      · intro j hj; cases hj
      · intro j c hj; cases hj; exact ⟨hi, hb⟩
      · intro _ hc; exact absurd rfl (hc i b)
      · simp only [MainPc.pendingAdd] at hwg ⊢; omega
      · intro hc; simp [MainPc.pastWait] at hc
      · intro v hv; cases hv
    · rename_i hb
      injection hs with hs; subst hs
      have hge : s.batches.length ≤ i := List.getElem?_eq_none_iff.1 hb
      refine ⟨h.hub_eq, h.batches_eq, h.len_ok, h.next_eq, h.ctx_eq, h.tasks_batch, h.tasks_idx,
        ?_, ?_, ?_, ?_, h.cnt_eq, ?_, ?_, h.err_eq, h.err_ok, h.sent_perm, h.not_panicked,
        h.fatal_msg⟩
      · intro j hj; cases hj
      · intro j c hj; cases hj
      · intro _ _; show s.tasks.length = s.batches.length; omega
      · simp only [MainPc.pendingAdd] at hwg ⊢; omega
      · intro hc; simp [MainPc.pastWait] at hc
      · intro v hv; cases hv
  · rename_i i b hm
    obtain ⟨hi, hb⟩ := h.main_spawn i b hm
    have hwg := h.wg_eq
    rw [hm] at hwg
    injection hs with hs; subst hs
    have hlt : i < s.batches.length := (List.getElem?_eq_some.1 hb).1
    refine ⟨h.hub_eq, h.batches_eq, h.len_ok, h.next_eq, h.ctx_eq, ?_, ?_,
      ?_, ?_, ?_, ?_, ?_, ?_, ?_, ?_, ?_, ?_, h.not_panicked, ?_⟩
    · show (s.tasks ++ [_]).map Task.batch = s.batches.take (s.tasks ++ [_]).length
      rw [List.map_append, List.length_append, List.length_singleton, List.take_succ,
        h.tasks_batch, ← hi, hb]
      rfl
    · show (s.tasks ++ [_]).map Task.idx = List.range (s.tasks ++ [_]).length
      rw [List.map_append, List.length_append, List.length_singleton, List.range_succ,
        h.tasks_idx, ← hi]
      rfl
    · intro j hj
      cases hj
      show i + 1 = (s.tasks ++ [_]).length ∧ i + 1 ≤ s.batches.length
      rw [List.length_append, List.length_singleton]
      omega
    · intro j c hj; cases hj
    · intro hc; exact absurd rfl (hc (i + 1))
    · show s.wg = (((s.tasks ++ [_]).length : Nat) : Int) + MainPc.pendingAdd (.loop (i + 1))
        - ((List.countP Task.done (s.tasks ++ [_]) : Nat) : Int)
      rw [List.length_append, List.length_singleton, List.countP_append]
      simp only [MainPc.pendingAdd] at hwg ⊢
      simp [List.countP_cons, Task.done]
      omega
    · show s.totalBatches = ((List.countP Task.counted (s.tasks ++ [_]) : Nat) : Int)
      rw [List.countP_append, h.cnt_eq]
      simp [List.countP_cons, Task.counted]
    · intro hc; simp [MainPc.pastWait] at hc
    · intro v hv; cases hv
    · intro t ht e he
      rcases List.mem_append.1 ht with ht | ht
      · exact h.err_eq t ht e he
      · simp only [List.mem_singleton] at ht; subst ht; cases he
    · intro t ht he
      rcases List.mem_append.1 ht with ht | ht
      · exact h.err_ok t ht he
      · simp only [List.mem_singleton] at ht; subst ht; simp [Task.sentOk] at he
    · show List.Perm s.sent (((s.tasks ++ [_]).filter Task.hasSent).map _)
      rw [List.filter_append]
      simpa [List.filter_cons, Task.hasSent] using h.sent_perm
    · intro msg hmsg
      obtain ⟨t, ht, e, he⟩ := h.fatal_msg msg hmsg
      exact ⟨t, List.mem_append_left _ ht, e, he⟩
  · rename_i hm
    split at hs
    · rename_i hz
      injection hs with hs; subst hs
      have hwg := h.wg_eq
      have hrest := h.main_rest (by intro i hc; rw [hm] at hc; cases hc)
        (by intro i b hc; rw [hm] at hc; cases hc)
      rw [hm] at hwg
      simp only [MainPc.pendingAdd] at hwg
      have hall : ∀ t ∈ s.tasks, t.done = true := by
        apply (List.countP_eq_length (p := Task.done)).1
        have := List.countP_le_length Task.done (l := s.tasks)
        omega
      refine ⟨h.hub_eq, h.batches_eq, h.len_ok, h.next_eq, h.ctx_eq, h.tasks_batch, h.tasks_idx,
        ?_, ?_, ?_, ?_, h.cnt_eq, ?_, ?_, h.err_eq, h.err_ok, h.sent_perm, h.not_panicked,
        h.fatal_msg⟩
      · intro j hj; cases hj
      · intro j c hj; cases hj
      · intro _ _; exact hrest
      · simp only [MainPc.pendingAdd]; omega
      · intro _; exact hall
      · intro v hv; cases hv
    · simp at hs
  · rename_i hm
    injection hs with hs; subst hs
    have hwg := h.wg_eq
    have hrest := h.main_rest (by intro i hc; rw [hm] at hc; cases hc)
      (by intro i b hc; rw [hm] at hc; cases hc)
    have hpw := h.past_wait (by rw [hm]; rfl)
    rw [hm] at hwg
    refine ⟨h.hub_eq, h.batches_eq, h.len_ok, h.next_eq, h.ctx_eq, h.tasks_batch, h.tasks_idx,
      ?_, ?_, ?_, ?_, h.cnt_eq, ?_, ?_, h.err_eq, h.err_ok, h.sent_perm, h.not_panicked,
      h.fatal_msg⟩
    · intro j hj; cases hj
    · intro j c hj; cases hj
    · intro _ _; exact hrest
    · simp only [MainPc.pendingAdd] at hwg ⊢; omega
    · intro _; exact hpw
    · intro v hv; cases hv; rfl
  · simp at hs

theorem inv_setPc {s0 s : State} (h : Inv s0 s) (hrun : s.status = .running) (k : Nat) (t : Task) (hk : s.tasks[k]? = some t)
    (pc' : TaskPc) (wg' tb' : Int) (sent' : List (Context × BatchIterator))
    (hwg : wg' + (if Task.done { t with pc := pc' } = true then 1 else 0)
      = s.wg + (if t.done = true then 1 else 0))
    (htb : tb' + (if t.counted = true then 1 else 0)
      = s.totalBatches + (if Task.counted { t with pc := pc' } = true then 1 else 0))
    (hsent : (Task.hasSent { t with pc := pc' } = t.hasSent ∧ sent' = s.sent)
      ∨ (t.hasSent = false ∧ Task.hasSent { t with pc := pc' } = true
          ∧ sent' = s.sent ++ [(s.ctx, t.batch)]))
    (hdone : t.done = true → Task.done { t with pc := pc' } = true)
    (herr : ∀ e, pc' = .l61 e → e = s.hub.SendBatch s.ctx t.batch)
    (hok : Task.sentOk { t with pc := pc' } = true → s.hub.SendBatch s.ctx t.batch = none) :
    Inv s0 { s with wg := wg', totalBatches := tb', sent := sent',
                    tasks := s.tasks.set k { t with pc := pc' } } := by
  have hl : (s.tasks.set k { t with pc := pc' }).length = s.tasks.length := List.length_set _ _ _
  have hmem : ∀ x ∈ s.tasks.set k { t with pc := pc' }, x ∈ s.tasks ∨ x = { t with pc := pc' } :=
    fun x hx => List.mem_or_eq_of_mem_set hx
  have htm : t ∈ s.tasks := List.getElem?_mem hk
  refine ⟨h.hub_eq, h.batches_eq, h.len_ok, h.next_eq, h.ctx_eq, ?_, ?_, ?_, ?_, ?_, ?_, ?_, ?_, h.ret_val,
    ?_, ?_, ?_, h.not_panicked, ?_⟩
  · show (s.tasks.set k _).map Task.batch = s.batches.take (s.tasks.set k _).length
    rw [hl, map_set_same Task.batch s.tasks k t { t with pc := pc' } hk rfl]
    exact h.tasks_batch
  · show (s.tasks.set k _).map Task.idx = List.range (s.tasks.set k _).length
    rw [hl, map_set_same Task.idx s.tasks k t { t with pc := pc' } hk rfl]
    exact h.tasks_idx
  · intro i hi
    show i = (s.tasks.set k _).length ∧ _
    rw [hl]
    exact h.main_loop i hi
  · intro i b hi
    show i = (s.tasks.set k _).length ∧ _
    rw [hl]
    exact h.main_spawn i b hi
  · intro h1 h2
    show (s.tasks.set k _).length = _
    rw [hl]
    exact h.main_rest h1 h2
  · show wg' = (((s.tasks.set k _).length : Nat) : Int) + s.main.pendingAdd
      - ((List.countP Task.done (s.tasks.set k _) : Nat) : Int)
    have hc := countP_set_eq Task.done s.tasks k t { t with pc := pc' } hk
    have hw := h.wg_eq
    rw [hl]
    split_ifs at hwg hc <;> omega
  · show tb' = ((List.countP Task.counted (s.tasks.set k _) : Nat) : Int)
    have hc := countP_set_eq Task.counted s.tasks k t { t with pc := pc' } hk
    have hw := h.cnt_eq
    split_ifs at htb hc <;> omega
  · intro hp x hx
    rcases hmem x hx with hx | hx
    · exact h.past_wait hp x hx
    · rw [hx]; exact hdone (h.past_wait hp t htm)
  · intro x hx e he
    rcases hmem x hx with hx | hx
    · exact h.err_eq x hx e he
    · subst hx; exact herr e he
  · intro x hx he
    rcases hmem x hx with hx | hx
    · exact h.err_ok x hx he
    · subst hx; exact hok he
  · show List.Perm sent' (((s.tasks.set k _).filter Task.hasSent).map (fun t => (s.ctx, t.batch)))
    rcases hsent with ⟨h1, h2⟩ | ⟨h1, h2, h3⟩
    · rw [h2, filter_map_set_same Task.hasSent (fun t => (s.ctx, t.batch)) s.tasks k t _ hk h1 rfl]
      exact h.sent_perm
    · rw [h3]
      have hg := filter_map_set_gain Task.hasSent (fun t => (s.ctx, t.batch)) s.tasks k t
        { t with pc := pc' } hk h1 h2
      exact ((List.perm_append_singleton _ _).trans (h.sent_perm.cons _)).trans hg.symm
  · intro msg hmsg
    have hmsg' : s.status = .fatal msg := hmsg
    rw [hrun] at hmsg'
    cases hmsg'

theorem Inv.wg_pos {s0 s : State} (h : Inv s0 s) (k : Nat) (t : Task)
    (hk : s.tasks[k]? = some t) (hd : t.done = false) : 1 ≤ s.wg := by
  have h1 := countP_lt_of_getElem? Task.done s.tasks k t hk hd
  have h2 := h.wg_eq
  have h3 : 0 ≤ s.main.pendingAdd := by
    cases s.main <;> simp [MainPc.pendingAdd]
  omega

theorem inv_stepTask {s0 s s' : State} (h : Inv s0 s) (hrun : s.status = .running) (k : Nat)
    (hs : stepTask s k = some s') : Inv s0 s' := by
  unfold stepTask at hs
  split at hs
  · simp at hs
  · rename_i t hk
    split at hs
    · rename_i hpc
      injection hs with hs; subst hs
      exact inv_setPc h hrun k t hk _ s.wg s.totalBatches _
        (by simp [Task.done, hpc]) (by simp [Task.counted, hpc])
        (Or.inr ⟨by simp [Task.hasSent, hpc], by simp [Task.hasSent], rfl⟩)
        (by simp [Task.done, hpc]) (by intro e he; cases he; rfl)
        (by
          intro hok
          cases hsb : s.hub.SendBatch s.ctx t.batch with
          | none => rfl
          | some e => simp [Task.sentOk, hsb] at hok)
    · rename_i e hpc
      injection hs with hs; subst hs
      refine ⟨h.hub_eq, h.batches_eq, h.len_ok, h.next_eq, h.ctx_eq, h.tasks_batch, h.tasks_idx,
        h.main_loop, h.main_spawn, h.main_rest, h.wg_eq, h.cnt_eq, h.past_wait, h.ret_val,
        h.err_eq, h.err_ok, h.sent_perm, ?_, ?_⟩
      · intro hc; cases hc
      · intro msg hmsg
        cases hmsg
        exact ⟨t, List.getElem?_mem hk, e, hpc, rfl⟩
    · rename_i hpc
      injection hs with hs; subst hs
      have hnone := h.err_eq t (List.getElem?_mem hk) none hpc
      exact inv_setPc h hrun k t hk _ s.wg s.totalBatches s.sent
        (by simp [Task.done, hpc]) (by simp [Task.counted, hpc])
        (Or.inl ⟨by simp [Task.hasSent, hpc], rfl⟩)
        (by simp [Task.done, hpc]) (by intro e he; cases he)
        (by intro _; exact hnone.symm)
    · rename_i hpc
      have hpos := h.wg_pos k t hk (by simp [Task.done, hpc])
      split at hs
      · omega
      · injection hs with hs; subst hs
        exact inv_setPc h hrun k t hk _ (s.wg - 1) s.totalBatches s.sent
          (by simp [Task.done, hpc]) (by simp [Task.counted, hpc])
          (Or.inl ⟨by simp [Task.hasSent, hpc], rfl⟩)
          (by simp [Task.done]) (by intro e he; cases he)
          (by intro _; exact h.err_ok t (List.getElem?_mem hk) (by simp [Task.sentOk, hpc]))
    · rename_i hpc
      injection hs with hs; subst hs
      have hcnt := h.cnt_eq
      have hlen := h.length_le
      have hb := h.len_ok
      have hlt := countP_lt_of_getElem? Task.counted s.tasks k t hk (by simp [Task.counted, hpc])
      have hw : wrapInt64 (s.totalBatches + 1) = s.totalBatches + 1 :=
        wrapInt64_of_range _ (by omega) (by omega)
      rw [hw]
      exact inv_setPc h hrun k t hk _ s.wg (s.totalBatches + 1) s.sent
        (by simp [Task.done, hpc]) (by simp [Task.counted, hpc])
        (Or.inl ⟨by simp [Task.hasSent, hpc], rfl⟩)
        (by simp [Task.done]) (by intro e he; cases he)
        (by intro _; exact h.err_ok t (List.getElem?_mem hk) (by simp [Task.sentOk, hpc]))
    · rename_i hpc
      injection hs with hs; subst hs
      exact inv_setPc h hrun k t hk _ s.wg s.totalBatches s.sent
        (by simp [Task.done, hpc]) (by simp [Task.counted, hpc])
        (Or.inl ⟨by simp [Task.hasSent, hpc], rfl⟩)
        (by simp [Task.done]) (by intro e he; cases he)
        (by intro _; exact h.err_ok t (List.getElem?_mem hk) (by simp [Task.sentOk, hpc]))
    · simp at hs

theorem inv_step {s0 s s' : State} (h : Inv s0 s) (a : Action) (hs : step s a = some s') :
    Inv s0 s' := by
  unfold step at hs
  split at hs
  · rename_i hrun
    cases a with
    | main => exact inv_stepMain h hs
    | task k => exact inv_stepTask h hrun k hs
  · simp at hs

theorem inv_run {s0 : State} (sched : List Action) {s s' : State} (h : Inv s0 s)
    (hs : run sched s = some s') : Inv s0 s' := by
  induction sched generalizing s with
  | nil => simp only [run, Option.some.injEq] at hs; subst hs; exact h
  | cons a as ih =>
    simp only [run] at hs
    split at hs
    · rename_i s1 h1
      exact ih (inv_step h a h1) hs
    · simp at hs

theorem inv_sendMessages (hub : Hub) (sched : List Action) (s : State)
    (hs : sendMessages hub sched = some s) : Inv (sendMessagesInit hub) s :=
  inv_run sched (inv_init hub) hs

/-! ## Every step consumes the measure: runs are finite -/

theorem measure_stepMain {s0 s s' : State} (h : Inv s0 s) (hs : stepMain s = some s') :
    s'.measure < s.measure := by
  unfold stepMain at hs
  split at hs
  · rename_i i hm
    split at hs
    · injection hs with hs; subst hs
      simp only [State.measure, hm, MainPc.rank]
      omega
    · injection hs with hs; subst hs
      simp only [State.measure, hm, MainPc.rank]
      omega
  · rename_i i b hm
    obtain ⟨hi, hb⟩ := h.main_spawn i b hm
    have hlt : i < s.batches.length := (List.getElem?_eq_some.1 hb).1
    injection hs with hs; subst hs
    simp only [State.measure, hm, MainPc.rank, List.map_append, List.sum_append, List.map_cons,
      List.map_nil, List.sum_cons, List.sum_nil, TaskPc.rank]
    omega
  · rename_i hm
    split at hs
    · injection hs with hs; subst hs
      simp only [State.measure, hm, MainPc.rank]
      omega
    · simp at hs
  · rename_i hm
    injection hs with hs; subst hs
    simp only [State.measure, hm, MainPc.rank]
    omega
  · simp at hs

theorem measure_stepTask {s s' : State} (hrun : s.status = .running) (k : Nat)
    (hs : stepTask s k = some s') : s'.measure < s.measure := by
  unfold stepTask at hs
  split at hs
  · simp at hs
  · rename_i t hk
    have hsum : ∀ pc' : TaskPc,
        ((s.tasks.set k { t with pc := pc' }).map (fun t => t.pc.rank)).sum + t.pc.rank
          = (s.tasks.map (fun t => t.pc.rank)).sum + pc'.rank :=
      fun pc' => sum_map_set (fun t => t.pc.rank) s.tasks k t { t with pc := pc' } hk
    split at hs
    · rename_i hpc
      injection hs with hs; subst hs
      have h1 := hsum (.l61 (s.hub.SendBatch s.ctx t.batch))
      rw [hpc] at h1
      simp only [State.measure]
      have h2 : ∀ x y : Nat, x + 5 = y + 4 → x < y := fun x y hxy => by omega
      have h3 := h2 _ _ h1
      omega
    · injection hs with hs; subst hs
      simp only [State.measure, hrun, Status.rank]
      omega
    · rename_i hpc
      injection hs with hs; subst hs
      have h1 := hsum .l65
      rw [hpc] at h1
      simp only [State.measure]
      have h2 : ∀ x y : Nat, x + 4 = y + 3 → x < y := fun x y hxy => by omega
      have h3 := h2 _ _ h1
      omega
    · rename_i hpc
      split at hs
      · injection hs with hs; subst hs
        simp only [State.measure, hrun, Status.rank]
        omega
      · injection hs with hs; subst hs
        have h1 := hsum .l66
        rw [hpc] at h1
        simp only [State.measure]
        have h2 : ∀ x y : Nat, x + 3 = y + 2 → x < y := fun x y hxy => by omega
        have h3 := h2 _ _ h1
        omega
    · rename_i hpc
      injection hs with hs; subst hs
      have h1 := hsum .l67
      rw [hpc] at h1
      simp only [State.measure]
      have h2 : ∀ x y : Nat, x + 2 = y + 1 → x < y := fun x y hxy => by omega
      have h3 := h2 _ _ h1
      omega
    · rename_i hpc
      injection hs with hs; subst hs
      have h1 := hsum .finished
      rw [hpc] at h1
      simp only [State.measure]
      have h2 : ∀ x y : Nat, x + 1 = y + 0 → x < y := fun x y hxy => by omega
      have h3 := h2 _ _ h1
      omega
    · simp at hs

theorem measure_step {s0 s s' : State} (h : Inv s0 s) (a : Action) (hs : step s a = some s') :
    s'.measure < s.measure := by
  unfold step at hs
  split at hs
  · rename_i hrun
    cases a with
    | main => exact measure_stepMain h hs
    | task k => exact measure_stepTask hrun k hs
  · simp at hs

theorem measure_run {s0 : State} (sched : List Action) {s s' : State} (h : Inv s0 s)
    (hs : run sched s = some s') : sched.length + s'.measure ≤ s.measure := by
  induction sched generalizing s with
  | nil => simp only [run, Option.some.injEq] at hs; subst hs; simp
  | cons a as ih =>
    simp only [run] at hs
    split at hs
    · rename_i s1 h1
      have := ih (inv_step h a h1) hs
      have := measure_step h a h1
      simp only [List.length_cons]
      omega
    · simp at hs

theorem measure_init (hub : Hub) : (sendMessagesInit hub).measure = 74 := by
  have hlen : generate.1.length = 10 := generate_spec.2.2
  unfold sendMessagesInit
  revert hlen
  generalize generate = g
  intro hlen
  simp [State.measure, Status.rank, MainPc.rank, hlen]

theorem sendMessages_length_le (hub : Hub) (sched : List Action) (s : State)
    (hs : sendMessages hub sched = some s) : sched.length ≤ 74 := by
  have := measure_run sched (inv_init hub) hs
  rw [measure_init] at this
  omega

/-! ## Where a run can end -/

theorem stepTask_none {s : State} (k : Nat) (t : Task) (hk : s.tasks[k]? = some t)
    (hs : stepTask s k = none) : t.pc = .finished := by
  unfold stepTask at hs
  rw [hk] at hs
  simp only at hs
  split at hs
  all_goals first | (rename_i hpc; exact hpc) | (split at hs <;> simp at hs) | simp at hs

theorem stuck_cases {s0 s : State} (h : Inv s0 s) (hst : s.stuck) :
    (∃ msg, s.status = .fatal msg)
      ∨ (s.status = .running ∧ (∃ v, s.main = .returned v)
          ∧ ∀ t ∈ s.tasks, t.pc = .finished) := by
  cases hstat : s.status with
  | fatal msg => exact Or.inl ⟨msg, rfl⟩
  | panicked => exact absurd hstat h.not_panicked
  | running =>
    right
    have hmain : stepMain s = none := by
      have := hst .main
      simpa [step, hstat] using this
    have htask : ∀ k, stepTask s k = none := by
      intro k
      have := hst (.task k)
      simpa [step, hstat] using this
    have hfin : ∀ t ∈ s.tasks, t.pc = .finished := by
      intro t ht
      obtain ⟨k, hk⟩ := List.mem_iff_getElem?.1 ht
      exact stepTask_none k t hk (htask k)
    refine ⟨rfl, ?_, hfin⟩
    unfold stepMain at hmain
    split at hmain
    · split at hmain <;> simp at hmain
    · simp at hmain
    · rename_i hm
      have hwg := h.wg_eq
      have hrest := h.main_rest (by intro i hc; rw [hm] at hc; cases hc)
        (by intro i b hc; rw [hm] at hc; cases hc)
      rw [hm] at hwg
      simp only [MainPc.pendingAdd] at hwg
      have hall : List.countP Task.done s.tasks = s.tasks.length :=
        (List.countP_eq_length (p := Task.done)).2
          (fun t ht => by simp [Task.done, hfin t ht])
      split at hmain
      · simp at hmain
      · rename_i hne
        omega
    · simp at hmain
    · rename_i v hm
      exact ⟨v, hm⟩

/-! ## Consequences of the invariant -/

theorem getD_of_isSome (o : Option State) (d : State) (h : o.isSome = true) :
    o = some (o.getD d) := by
  cases o with
  | none => simp at h
  | some x => rfl

theorem Inv.batch_mem {s0 s : State} (h : Inv s0 s) (t : Task) (ht : t ∈ s.tasks) :
    t.batch ∈ s.batches := by
  have h1 : t.batch ∈ s.tasks.map Task.batch := List.mem_map_of_mem _ ht
  rw [h.tasks_batch] at h1
  exact List.mem_of_mem_take h1

theorem Inv.tasks_all {s0 s : State} (h : Inv s0 s) (hlen : s.tasks.length = s.batches.length) :
    s.tasks.map Task.batch = s.batches := by
  rw [h.tasks_batch, hlen, List.take_length]

theorem Inv.exists_task {s0 s : State} (h : Inv s0 s)
    (hlen : s.tasks.length = s.batches.length) (b : BatchIterator) (hb : b ∈ s.batches) :
    ∃ t ∈ s.tasks, t.batch = b := by
  rw [← h.tasks_all hlen] at hb
  obtain ⟨t, ht, rfl⟩ := List.mem_map.1 hb
  exact ⟨t, ht, rfl⟩

theorem Inv.pastWait_length {s0 s : State} (h : Inv s0 s) (hp : s.main.pastWait = true) :
    s.tasks.length = s.batches.length := by
  apply h.main_rest
  · intro i hc; rw [hc] at hp; simp [MainPc.pastWait] at hp
  · intro i b hc; rw [hc] at hp; simp [MainPc.pastWait] at hp

theorem Task.sentOk_of_done (t : Task) (h : t.done = true) : t.sentOk = true := by
  unfold Task.done at h
  unfold Task.sentOk
  split at h <;> simp_all

theorem Task.sentOk_of_counted (t : Task) (h : t.counted = true) : t.sentOk = true := by
  unfold Task.counted at h
  unfold Task.sentOk
  split at h <;> simp_all

theorem Task.hasSent_of_sentOk (t : Task) (h : t.sentOk = true) : t.hasSent = true := by
  unfold Task.sentOk at h
  unfold Task.hasSent
  split at h <;> simp_all

theorem Task.done_of_counted (t : Task) (h : t.counted = true) : t.done = true := by
  unfold Task.counted at h
  unfold Task.done
  split at h <;> simp_all

theorem result_pastWait (s : State) (v : Int) (h : s.result = some v) :
    s.main = .returned v ∧ s.main.pastWait = true := by
  unfold State.result at h
  split at h
  · rename_i w hm
    simp only [Option.some.injEq] at h
    subst h
    exact ⟨hm, by rw [hm]; rfl⟩
  · simp at h

theorem Inv.result_eq (hub : Hub) {s : State} (h : Inv (sendMessagesInit hub) s) (v : Int)
    (hv : s.result = some v) : v = 8799 := by
  have h1 := h.ret_val v (result_pastWait s v hv).1
  have h2 : s.nextTestId = generate.2 := h.next_eq.trans (init_nextTestId hub)
  have h3 : (8800 : Int) - 1 = 8799 := by norm_num
  rw [h1, h2, generate_spec.2.1, h3]
  exact wrapInt64_of_range 8799 (by norm_num) (by norm_num)

theorem Inv.running_of_ok {s0 s : State} (h : Inv s0 s)
    (hok : ∀ b ∈ s.batches, s.hub.SendBatch s.ctx b = none) : s.status = .running := by
  cases hst : s.status with
  | running => rfl
  | panicked => exact absurd hst h.not_panicked
  | fatal msg =>
    obtain ⟨t, ht, e, he, _⟩ := h.fatal_msg msg hst
    have h1 := h.err_eq t ht (some e) he
    rw [hok t.batch (h.batch_mem t ht)] at h1
    cases h1

theorem Inv.not_pastWait_of_fail {s0 s : State} (h : Inv s0 s)
    (hfail : ∃ b ∈ s.batches, s.hub.SendBatch s.ctx b ≠ none) : s.main.pastWait = false := by
  obtain ⟨b, hb, hne⟩ := hfail
  cases hp : s.main.pastWait with
  | false => rfl
  | true =>
    obtain ⟨t, ht, rfl⟩ := h.exists_task (h.pastWait_length hp) b hb
    exact absurd (h.err_ok t ht (t.sentOk_of_done (h.past_wait hp t ht))) hne

theorem Inv.counter_le {s0 s : State} (h : Inv s0 s) :
    s.totalBatches ≤ (s.tasks.countP Task.sentOk : Nat)
      ∧ s.tasks.countP Task.sentOk ≤ s.batches.length := by
  constructor
  · rw [h.cnt_eq]
    exact_mod_cast List.countP_mono_left (fun (t : Task) _ hc => t.sentOk_of_counted hc)
  · exact (List.countP_le_length Task.sentOk).trans h.length_le

theorem Inv.counter_lt_of_fail {s0 s : State} (h : Inv s0 s)
    (hfail : ∃ b ∈ s.batches, s.hub.SendBatch s.ctx b ≠ none) :
    s.totalBatches < s.batches.length := by
  obtain ⟨b, hb, hne⟩ := hfail
  have hle := h.length_le
  have hc := h.cnt_eq
  have h1 : s.tasks.countP Task.counted ≤ s.tasks.length := List.countP_le_length _
  rcases Nat.lt_or_ge s.tasks.length s.batches.length with hlt | hge
  · omega
  · obtain ⟨t, ht, rfl⟩ := h.exists_task (by omega) b hb
    obtain ⟨k, hk⟩ := List.mem_iff_getElem?.1 ht
    have hnc : t.counted = false := by
      cases hcn : t.counted with
      | false => rfl
      | true => exact absurd (h.err_ok t ht (t.sentOk_of_counted hcn)) hne
    have := countP_lt_of_getElem? Task.counted s.tasks k t hk hnc
    omega

theorem Inv.sent_subperm {s0 s : State} (h : Inv s0 s) :
    (s.sent.map Prod.snd).Subperm s.batches := by
  refine ⟨(s.tasks.filter Task.hasSent).map Task.batch, ?_, ?_⟩
  · have := (h.sent_perm.map Prod.snd).symm
    simpa [List.map_map, Function.comp_def] using this
  · have h1 : List.Sublist ((s.tasks.filter Task.hasSent).map Task.batch)
        (s.tasks.map Task.batch) := (List.filter_sublist _).map _
    rw [h.tasks_batch] at h1
    exact h1.trans (List.take_sublist _ _)

theorem Inv.sent_perm_of_pastWait {s0 s : State} (h : Inv s0 s)
    (hp : s.main.pastWait = true) : List.Perm (s.sent.map Prod.snd) s.batches := by
  have hall : s.tasks.filter Task.hasSent = s.tasks :=
    List.filter_eq_self.2 (fun t ht =>
      t.hasSent_of_sentOk (t.sentOk_of_done (h.past_wait hp t ht)))
  have := h.sent_perm.map Prod.snd
  rw [hall] at this
  simpa [List.map_map, Function.comp_def, h.tasks_all (h.pastWait_length hp)] using this

theorem Inv.sent_ctx {s0 s : State} (h : Inv s0 s) (x : Context × BatchIterator)
    (hx : x ∈ s.sent) : x.1 = s.ctx := by
  have := (h.sent_perm.mem_iff (a := x)).1 hx
  obtain ⟨t, _, rfl⟩ := List.mem_map.1 this
  rfl

theorem Inv.sent_length {s0 s : State} (h : Inv s0 s) :
    s.sent.length = s.tasks.countP Task.hasSent := by
  rw [h.sent_perm.length_eq, List.length_map, List.countP_eq_length_filter]

/-! ## Every run can be completed -/

theorem run_append (l1 l2 : List Action) (s : State) :
    run (l1 ++ l2) s = (run l1 s).bind (run l2) := by
  induction l1 generalizing s with
  | nil => rfl
  | cons a l1 ih =>
    simp only [List.cons_append, run]
    cases step s a with
    | none => rfl
    | some s1 => exact ih s1

theorem exists_completion {s0 : State} (n : Nat) (s : State) (h : Inv s0 s)
    (hn : s.measure ≤ n) : ∃ sched s', run sched s = some s' ∧ s'.stuck := by
  induction n generalizing s with
  | zero =>
    refine ⟨[], s, rfl, ?_⟩
    intro a
    cases hs : step s a with
    | none => rfl
    | some s1 => have := measure_step h a hs; omega
  | succ n ih =>
    by_cases hst : s.stuck
    · exact ⟨[], s, rfl, hst⟩
    · unfold State.stuck at hst
      push_neg at hst
      obtain ⟨a, ha⟩ := hst
      cases hs : step s a with
      | none => exact absurd hs ha
      | some s1 =>
        have hm := measure_step h a hs
        obtain ⟨sched, s', hr, hstuck⟩ := ih s1 (inv_step h a hs) (by omega)
        exact ⟨a :: sched, s', by simp only [run, hs]; exact hr, hstuck⟩

theorem sendMessages_completion (hub : Hub) (sched : List Action) (s : State)
    (hs : sendMessages hub sched = some s) :
    ∃ rest s', sendMessages hub (sched ++ rest) = some s' ∧ s'.stuck := by
  obtain ⟨rest, s', hr, hst⟩ := exists_completion s.measure s (inv_sendMessages hub sched s hs)
    (Nat.le_refl _)
  refine ⟨rest, s', ?_, hst⟩
  unfold sendMessages at hs ⊢
  rw [run_append, hs]
  exact hr

/-! ## How the counter moves in one step -/

theorem stepMain_counter {s s' : State} (hs : stepMain s = some s') :
    s'.totalBatches = s.totalBatches := by
  unfold stepMain at hs
  split at hs
  · split at hs <;> (injection hs with hs; subst hs; rfl)
  · injection hs with hs; subst hs; rfl
  · split at hs
    · injection hs with hs; subst hs; rfl
    · simp at hs
  · injection hs with hs; subst hs; rfl
  · simp at hs

theorem stepTask_counter {s0 s s' : State} (h : Inv s0 s) (k : Nat)
    (hs : stepTask s k = some s') :
    s'.totalBatches = s.totalBatches
      ∨ (s'.totalBatches = s.totalBatches + 1
          ∧ ∃ t, s.tasks[k]? = some t ∧ t.pc = .l66
              ∧ s'.tasks[k]? = some { t with pc := .l67 }
              ∧ s.hub.SendBatch s.ctx t.batch = none) := by
  unfold stepTask at hs
  split at hs
  · simp at hs
  · rename_i t hk
    split at hs
    · injection hs with hs; subst hs; exact Or.inl rfl
    · injection hs with hs; subst hs; exact Or.inl rfl
    · injection hs with hs; subst hs; exact Or.inl rfl
    · split at hs <;> (injection hs with hs; subst hs; exact Or.inl rfl)
    · rename_i hpc
      injection hs with hs; subst hs
      right
      have hcnt := h.cnt_eq
      have hlen := h.length_le
      have hb := h.len_ok
      have hlt := countP_lt_of_getElem? Task.counted s.tasks k t hk (by simp [Task.counted, hpc])
      have hw : wrapInt64 (s.totalBatches + 1) = s.totalBatches + 1 :=
        wrapInt64_of_range _ (by omega) (by omega)
      refine ⟨hw, t, hk, hpc, ?_, ?_⟩
      · exact List.getElem?_set_self (List.getElem?_eq_some.1 hk).1
      · exact h.err_ok t (List.getElem?_mem hk) (by simp [Task.sentOk, hpc])
    · injection hs with hs; subst hs; exact Or.inl rfl
    · simp at hs

theorem step_counter {s0 s s' : State} (h : Inv s0 s) (a : Action)
    (hs : step s a = some s') :
    s'.totalBatches = s.totalBatches
      ∨ (s'.totalBatches = s.totalBatches + 1
          ∧ ∃ k t, a = .task k ∧ s.tasks[k]? = some t ∧ t.pc = .l66
              ∧ s'.tasks[k]? = some { t with pc := .l67 }
              ∧ s.hub.SendBatch s.ctx t.batch = none) := by
  unfold step at hs
  split at hs
  · cases a with
    | main => exact Or.inl (stepMain_counter hs)
    | task k =>
      rcases stepTask_counter h k hs with h1 | ⟨h1, t, h2⟩
      · exact Or.inl h1
      · exact Or.inr ⟨h1, k, t, rfl, h2⟩
  · simp at hs

/-! ## Facts about the generated batch set -/

theorem allEvents_ids (bs : List BatchIterator) :
    (allEvents bs).map Event.testId = (bs.map BatchIterator.testIds).flatten := by
  induction bs with
  | nil => rfl
  | cons b bs ih =>
    have : allEvents (b :: bs) = b.events ++ allEvents bs := rfl
    rw [this, List.map_append, ih]
    rfl

theorem generate_ids_flat :
    (allEvents generate.1).map Event.testId
      = (List.range 8800).map (fun (n : Nat) => some (n : Int)) := by
  rw [allEvents_ids, generate_spec.1]
  exact flatten_blocks 880 10

theorem some_cast_injective : Function.Injective (fun (n : Nat) => some (n : Int)) := by
  intro a b hab
  simp only [Option.some.injEq, Nat.cast_inj] at hab
  exact hab

theorem mem_ids_iff (z : Int) :
    some z ∈ (List.range 8800).map (fun (n : Nat) => some (n : Int)) ↔ 0 ≤ z ∧ z < 8800 := by
  simp only [List.mem_map, List.mem_range, Option.some.injEq]
  constructor
  · rintro ⟨n, hn, rfl⟩
    omega
  · rintro ⟨h0, h1⟩
    exact ⟨z.toNat, by omega, by omega⟩

theorem generate_getElem (i j : Nat) (hi : i < 10) (hj : j < 880) :
    ∃ b e, generate.1[i]? = some b ∧ b.events[j]? = some e
      ∧ e.testId = some (880 * (i : Int) + (j : Int)) := by
  have hlen : i < generate.1.length := by rw [generate_spec.2.2]; exact hi
  have h1 := congrArg (fun l => l[i]?) generate_spec.1
  simp only [List.getElem?_map, List.getElem?_range hi, List.getElem?_eq_getElem hlen,
    Option.map_some'] at h1
  refine ⟨generate.1[i], ?_⟩
  have h2 := congrArg (fun l => l[j]?) (Option.some.inj h1)
  simp only [BatchIterator.testIds, List.getElem?_map, List.getElem?_range hj,
    Option.map_some'] at h2
  cases he : (generate.1[i]).events[j]? with
  | none => rw [he] at h2; simp at h2
  | some e =>
    rw [he] at h2
    simp only [Option.map_some', Option.some.injEq] at h2
    exact ⟨e, List.getElem?_eq_getElem hlen, rfl, h2⟩

theorem generate_nodup : generate.1.Nodup := by
  apply List.Nodup.of_map BatchIterator.testIds
  rw [generate_spec.1]
  apply List.Nodup.map _ (List.nodup_range 10)
  intro a b hab
  have h := congrArg (fun l => l[0]?) hab
  simp only [List.getElem?_map, List.getElem?_range (by norm_num : 0 < 880), Option.map_some',
    Option.some.injEq, Nat.cast_zero, add_zero] at h
  omega

/-! ## Concrete runs -/

set_option maxRecDepth 100000 in
theorem fullRun_runs : sendMessages okHub fullRun = some fullRunState :=
  getD_of_isSome _ _ (by decide)

set_option maxRecDepth 100000 in
theorem thirdFails_runs : sendMessages throttledHub thirdFails = some thirdFailsState :=
  getD_of_isSome _ _ (by decide)

set_option maxRecDepth 100000 in
theorem firstDone_runs : sendMessages okHub firstDone = some firstDoneState :=
  getD_of_isSome _ _ (by decide)

set_option maxRecDepth 100000 in
theorem launched_runs : sendMessages throttledHub launchAll = some launchedState :=
  getD_of_isSome _ _ (by decide)

set_option maxRecDepth 100000 in
theorem earlyReturn_runs : sendMessages okHub earlyReturn = some earlyReturnState :=
  getD_of_isSome _ _ (by decide)

theorem okHub_ok : ∀ b ∈ (sendMessagesInit okHub).batches,
    okHub.SendBatch (sendMessagesInit okHub).ctx b = none :=
  fun _ _ => rfl

theorem throttledHub_fails : ∃ b ∈ (sendMessagesInit throttledHub).batches,
    throttledHub.SendBatch (sendMessagesInit throttledHub).ctx b ≠ none := by
  obtain ⟨b, e, hb, _⟩ := generate_getElem 2 0 (by norm_num) (by norm_num)
  refine ⟨b, ?_, by simp [throttledHub]⟩
  rw [init_batches]
  exact List.getElem?_mem hb

/-! ## Claims about the generate phase -/

/-- C1: the `testId` values carried by the events of the batch set built by
`sendMessages` (ten calls of `createEventBatch` on one cursor starting at 0) are, in
order, exactly the integers 0, 1, ..., 8799: there are 8800 of them, none occurs
twice, and an integer occurs iff it lies in `[0, 8800)`. -/
theorem C1_testIds_are_exactly_range :
    (allEvents generate.1).map Event.testId
        = (List.range 8800).map (fun (n : Nat) => some (n : Int))
      ∧ (allEvents generate.1).length = 8800
      ∧ ((allEvents generate.1).map Event.testId).Nodup
      ∧ ∀ z : Int, some z ∈ (allEvents generate.1).map Event.testId ↔ (0 ≤ z ∧ z < 8800) := by
  refine ⟨generate_ids_flat, ?_, ?_, ?_⟩
  · have := congrArg List.length generate_ids_flat
    simpa using this
  · rw [generate_ids_flat]
    exact List.Nodup.map some_cast_injective (List.nodup_range 8800)
  · intro z
    rw [generate_ids_flat]
    exact mem_ids_iff z

/-- C3: for every starting cursor value, `createEventBatch` returns a batch of
exactly 880 events; each event has a payload of exactly 1024 bytes and a property
map in which the key `testId` is present. -/
theorem C3_createEventBatch_shape (c : Int) :
    (createEventBatch c).1.events.length = 880
      ∧ ∀ e ∈ (createEventBatch c).1.events,
          e.Data.length = 1024 ∧ (e.Properties.lookup "testId").isSome = true := by
  constructor
  · simp [createEventBatch, NewEventBatchIterator, createEventBatchLoop_length, batchSize]
  · apply createEventBatchLoop_forall
    · intro v
      refine ⟨?_, ?_⟩
      · show (1 :: List.replicate 1023 0).length = 1024
        rw [List.length_cons, List.length_replicate]
      · show (List.lookup "testId" [("testId", v)]).isSome = true
        simp [List.lookup]
    · intro e he
      simp at he

/-- C4: for a starting cursor `c` in the `int64` range with `c + 880 ≤ 2^63 - 1`, one
allocation stores the current cursor and advances it by one; the `k`-th event of the
batch built by `createEventBatch` carries `testId = c + k`, consecutive events carry
consecutive ids, and the cursor left behind is `c + 880`. -/
theorem C4_createEventBatch_allocates (c : Int) (hlo : -2 ^ 63 ≤ c)
    (hhi : c + 880 ≤ 2 ^ 63 - 1) :
    createEventBatchLoop 1 [] c = ([{ Data := data, Properties := [("testId", c)] }], c + 1)
      ∧ (createEventBatch c).1.testIds
          = (List.range 880).map (fun (k : Nat) => some (c + (k : Int)))
      ∧ (∀ k : Nat, k < 880 → (createEventBatch c).1.testIds[k]? = some (some (c + (k : Int))))
      ∧ (∀ k : Nat, k + 1 < 880 → ∃ a : Int,
            (createEventBatch c).1.testIds[k]? = some (some a)
              ∧ (createEventBatch c).1.testIds[k + 1]? = some (some (a + 1)))
      ∧ (createEventBatch c).2 = c + 880 := by
  obtain ⟨h1, h2⟩ := createEventBatch_ids c hlo hhi
  have hk : ∀ k : Nat, k < 880 →
      (createEventBatch c).1.testIds[k]? = some (some (c + (k : Int))) := by
    intro k hk
    rw [h1, List.getElem?_map, List.getElem?_range hk]
    rfl
  refine ⟨?_, h1, hk, ?_, h2⟩
  · simp only [createEventBatchLoop, List.nil_append]
    rw [wrapInt64_of_range _ (by omega) (by omega)]
  · intro k hk1
    refine ⟨c + (k : Int), hk k (by omega), ?_⟩
    rw [hk (k + 1) hk1]
    push_cast
    rw [add_assoc]

/-- Witness for C4 at the largest admissible cursor, `c = 2^63 - 881`. -/
theorem C4_createEventBatch_allocates_witness :
    (createEventBatch (2 ^ 63 - 881)).1.testIds
        = (List.range 880).map (fun (k : Nat) => some ((2 ^ 63 - 881 : Int) + (k : Int)))
      ∧ (createEventBatch (2 ^ 63 - 881)).2 = 2 ^ 63 - 881 + 880 :=
  have h := C4_createEventBatch_allocates (2 ^ 63 - 881) (by norm_num) (by norm_num)
  ⟨h.2.1, h.2.2.2.2⟩

/-- C10: in the batch set built by `sendMessages`, the `j`-th event of the `i`-th
batch carries `testId = 880 * i + j`; batch `i` holds exactly the ids
`880 * i, ..., 880 * i + 879` in increasing order. -/
theorem C10_batch_id_ranges (i j : Nat) (hi : i < 10) (hj : j < 880) :
    (∃ b e, generate.1[i]? = some b ∧ b.events[j]? = some e
        ∧ e.testId = some (880 * (i : Int) + (j : Int)))
      ∧ generate.1.map BatchIterator.testIds
          = (List.range 10).map (fun (i : Nat) =>
              (List.range 880).map (fun (j : Nat) => some (880 * (i : Int) + (j : Int)))) :=
  ⟨generate_getElem i j hi hj, generate_spec.1⟩

/-- Witness for C10: the last event of the last batch carries `testId = 8799`. -/
theorem C10_batch_id_ranges_witness :
    ∃ b e, generate.1[9]? = some b ∧ b.events[879]? = some e
      ∧ e.testId = some (880 * ((9 : Nat) : Int) + ((879 : Nat) : Int)) :=
  (C10_batch_id_ranges 9 879 (by decide) (by decide)).1

/-! ## Claims about the dispatch phase -/

theorem Inv.env (hub : Hub) {s : State} (h : Inv (sendMessagesInit hub) s) :
    s.hub = hub ∧ s.ctx = (sendMessagesInit hub).ctx
      ∧ s.batches = (sendMessagesInit hub).batches ∧ s.batches = generate.1 :=
  ⟨h.hub_eq.trans (init_hub hub), h.ctx_eq.trans (init_ctx hub).symm, h.batches_eq,
    h.batches_eq.trans (init_batches hub)⟩

theorem Inv.ok_transfer (hub : Hub) {s : State} (h : Inv (sendMessagesInit hub) s)
    (hok : ∀ b ∈ (sendMessagesInit hub).batches,
      hub.SendBatch (sendMessagesInit hub).ctx b = none) :
    ∀ b ∈ s.batches, s.hub.SendBatch s.ctx b = none := by
  obtain ⟨h1, h2, h3, _⟩ := h.env hub
  rw [h1, h2, h3]
  exact hok

theorem Inv.fail_transfer (hub : Hub) {s : State} (h : Inv (sendMessagesInit hub) s)
    (hfail : ∃ b ∈ (sendMessagesInit hub).batches,
      hub.SendBatch (sendMessagesInit hub).ctx b ≠ none) :
    ∃ b ∈ s.batches, s.hub.SendBatch s.ctx b ≠ none := by
  obtain ⟨h1, h2, h3, _⟩ := h.env hub
  rw [h1, h2, h3]
  exact hfail

theorem ok_stuck_result (hub : Hub) {s : State} (h : Inv (sendMessagesInit hub) s)
    (hok : ∀ b ∈ (sendMessagesInit hub).batches,
      hub.SendBatch (sendMessagesInit hub).ctx b = none)
    (hst : s.stuck) :
    s.result = some 8799 ∧ s.totalBatches = 10 ∧ ∀ t ∈ s.tasks, t.pc = .finished := by
  have hrun := h.running_of_ok (h.ok_transfer hub hok)
  rcases stuck_cases h hst with ⟨msg, hm⟩ | ⟨_, ⟨v, hv⟩, hfin⟩
  · rw [hrun] at hm; cases hm
  · have hres : s.result = some v := by simp [State.result, hv]
    have hv' := h.result_eq hub v hres
    subst hv'
    refine ⟨hres, ?_, hfin⟩
    have hlen := h.pastWait_length (result_pastWait s _ hres).2
    have hall : List.countP Task.counted s.tasks = s.tasks.length :=
      (List.countP_eq_length (p := Task.counted)).2
        (fun t ht => by simp [Task.counted, hfin t ht])
    rw [h.cnt_eq, hall, hlen, (h.env hub).2.2.2, generate_spec.2.2]
    rfl

theorem fail_stuck_fatal (hub : Hub) {s : State} (h : Inv (sendMessagesInit hub) s)
    (hfail : ∃ b ∈ (sendMessagesInit hub).batches,
      hub.SendBatch (sendMessagesInit hub).ctx b ≠ none)
    (hst : s.stuck) : ∃ e, s.status = .fatal ("ERROR sending batch: " ++ e) := by
  have hnp := h.not_pastWait_of_fail (h.fail_transfer hub hfail)
  rcases stuck_cases h hst with ⟨msg, hm⟩ | ⟨_, ⟨v, hv⟩, _⟩
  · obtain ⟨t, _, e, _, he⟩ := h.fatal_msg msg hm
    exact ⟨e, by rw [hm, he]⟩
  · rw [hv] at hnp
    simp [MainPc.pastWait] at hnp

/-- C2: when every send succeeds, no run of `sendMessages` aborts, every value it
returns is `10 * 880 - 1 = 8799` whatever the order in which the goroutines were
scheduled, every run that has ended has returned 8799, every run can be continued to
such an end and no run has more than 74 actions; 8799 is the highest `testId` carried
by an event of the batch set. -/
theorem C2_returns_last_expected_id (hub : Hub)
    (hok : ∀ b ∈ (sendMessagesInit hub).batches,
      hub.SendBatch (sendMessagesInit hub).ctx b = none)
    (sched : List Action) (s : State) (hs : sendMessages hub sched = some s) :
    s.status = .running
      ∧ (∀ v, s.result = some v → v = 8799)
      ∧ (s.stuck → s.result = some 8799)
      ∧ (∃ rest s', sendMessages hub (sched ++ rest) = some s' ∧ s'.stuck
            ∧ s'.result = some 8799)
      ∧ sched.length ≤ 74
      ∧ some 8799 ∈ (allEvents s.batches).map Event.testId
      ∧ ∀ z : Int, some z ∈ (allEvents s.batches).map Event.testId → z ≤ 8799 := by
  have h := inv_sendMessages hub sched s hs
  have hids : (allEvents s.batches).map Event.testId
      = (List.range 8800).map (fun (n : Nat) => some (n : Int)) := by
    rw [(h.env hub).2.2.2]
    exact generate_ids_flat
  refine ⟨h.running_of_ok (h.ok_transfer hub hok), fun v hv => h.result_eq hub v hv,
    fun hst => (ok_stuck_result hub h hok hst).1, ?_, sendMessages_length_le hub sched s hs,
    ?_, ?_⟩
  · obtain ⟨rest, s', hr, hst⟩ := sendMessages_completion hub sched s hs
    exact ⟨rest, s', hr, hst, (ok_stuck_result hub (inv_sendMessages hub _ s' hr) hok hst).1⟩
  · rw [hids]
    exact (mem_ids_iff 8799).2 (by norm_num)
  · intro z hz
    rw [hids] at hz
    have := (mem_ids_iff z).1 hz
    omega

set_option maxRecDepth 100000 in
/-- Witness for C2: on a hub that accepts every batch, the schedule `fullRun` (the
goroutines complete in reverse launch order) is a run of `sendMessages`; it does not
abort and it returns 8799. -/
theorem C2_returns_last_expected_id_witness :
    (∀ b ∈ (sendMessagesInit okHub).batches,
        okHub.SendBatch (sendMessagesInit okHub).ctx b = none)
      ∧ sendMessages okHub fullRun = some fullRunState
      ∧ fullRunState.status = .running
      ∧ fullRunState.result = some 8799 := by
  have h := C2_returns_last_expected_id okHub okHub_ok fullRun fullRunState fullRun_runs
  have hsome : fullRunState.result.isSome = true := by decide
  refine ⟨okHub_ok, fullRun_runs, h.1, ?_⟩
  cases hr : fullRunState.result with
  | none => rw [hr] at hsome; cases hsome
  | some v => rw [h.2.1 v hr]

/-- C5: when the send of at least one batch of the set returns an error, no run of
`sendMessages` returns a value (the main goroutine never gets past `wg.Wait()`), every
run that has ended has ended in `log.Fatalf`, every run can be continued to such an
end and has at most 74 actions, the counter stays below 10, a goroutine whose send
fails never calls `wg.Done()` nor increments the counter, and no batch is passed to
`SendBatch` more than once. -/
theorem C5_fail_fast (hub : Hub)
    (hfail : ∃ b ∈ (sendMessagesInit hub).batches,
      hub.SendBatch (sendMessagesInit hub).ctx b ≠ none)
    (sched : List Action) (s : State) (hs : sendMessages hub sched = some s) :
    s.result = none
      ∧ s.main.pastWait = false
      ∧ (s.stuck → ∃ e, s.status = .fatal ("ERROR sending batch: " ++ e))
      ∧ (∃ rest s', sendMessages hub (sched ++ rest) = some s' ∧ s'.stuck
            ∧ ∃ e, s'.status = .fatal ("ERROR sending batch: " ++ e))
      ∧ sched.length ≤ 74
      ∧ s.totalBatches < 10
      ∧ (∀ t ∈ s.tasks, hub.SendBatch s.ctx t.batch ≠ none →
            t.done = false ∧ t.counted = false)
      ∧ (s.sent.map Prod.snd).Nodup
      ∧ s.sent.length ≤ s.tasks.length := by
  have h := inv_sendMessages hub sched s hs
  have hf := h.fail_transfer hub hfail
  have hnp := h.not_pastWait_of_fail hf
  refine ⟨?_, hnp, fun hst => fail_stuck_fatal hub h hfail hst, ?_,
    sendMessages_length_le hub sched s hs, ?_, ?_, ?_, ?_⟩
  · cases hr : s.result with
    | none => rfl
    | some v =>
      have := (result_pastWait s v hr).2
      rw [hnp] at this
      cases this
  · obtain ⟨rest, s', hr, hst⟩ := sendMessages_completion hub sched s hs
    exact ⟨rest, s', hr, hst, fail_stuck_fatal hub (inv_sendMessages hub _ s' hr) hfail hst⟩
  · have := h.counter_lt_of_fail hf
    rw [(h.env hub).2.2.2, generate_spec.2.2] at this
    exact_mod_cast this
  · intro t ht hne
    rw [← (h.env hub).1] at hne
    have hnd : t.done = false := by
      cases hd : t.done with
      | false => rfl
      | true => exact absurd (h.err_ok t ht (t.sentOk_of_done hd)) hne
    refine ⟨hnd, ?_⟩
    cases hc : t.counted with
    | false => rfl
    | true => rw [t.done_of_counted hc] at hnd; cases hnd
  · obtain ⟨l, hp, hsub⟩ := h.sent_subperm
    have hnd : s.batches.Nodup := by rw [(h.env hub).2.2.2]; exact generate_nodup
    exact hp.nodup (hnd.sublist hsub)
  · rw [h.sent_length]
    exact List.countP_le_length _

set_option maxRecDepth 100000 in
/-- Witness for C5: on a hub that rejects every batch, after all goroutines are
launched and the third one has sent and tested its error, the process has exited
through `log.Fatalf`, `sendMessages` has not returned and the counter is below 10. -/
theorem C5_fail_fast_witness :
    (∃ b ∈ (sendMessagesInit throttledHub).batches,
        throttledHub.SendBatch (sendMessagesInit throttledHub).ctx b ≠ none)
      ∧ sendMessages throttledHub thirdFails = some thirdFailsState
      ∧ thirdFailsState.status = .fatal "ERROR sending batch: server busy"
      ∧ thirdFailsState.result = none
      ∧ thirdFailsState.totalBatches < 10 :=
  have h := C5_fail_fast throttledHub throttledHub_fails thirdFails thirdFailsState
    thirdFails_runs
  ⟨throttledHub_fails, thirdFails_runs, by decide, h.1, h.2.2.2.2.2.1⟩

set_option maxRecDepth 100000 in
/-- C6: evaluation of `sendMessages` on a hub that accepts every batch, under the
schedule `earlyReturn`: every goroutine runs lines 59, 61 and 65 (`wg.Done()`) and is
then preempted before line 66; `wg.Wait()` returns and `sendMessages` returns 8799
while `totalBatches` is still 0 and all ten goroutines are still at line 66. -/
theorem C6_wait_returns_before_increment :
    sendMessages okHub earlyReturn = some earlyReturnState
      ∧ earlyReturnState.result = some 8799
      ∧ earlyReturnState.totalBatches = 0
      ∧ earlyReturnState.status = .running
      ∧ earlyReturnState.tasks.map Task.pc = List.replicate 10 TaskPc.l66 := by
  have hsome : earlyReturnState.result.isSome = true := by decide
  refine ⟨earlyReturn_runs, ?_, by decide, by decide, by decide⟩
  cases hr : earlyReturnState.result with
  | none => rw [hr] at hsome; cases hsome
  | some v =>
    rw [(inv_sendMessages okHub earlyReturn earlyReturnState earlyReturn_runs).result_eq okHub v hr]

/-- C7: the counter starts at 0; in every reachable state it equals the number of
goroutines that have executed line 66, each of which had its send return `nil`, so it
is at most the number of successfully sent batches and at most 10; a step changes the
counter only by adding one, and only when a goroutine moves from line 66 to line 67
(which a goroutine does once). -/
theorem C7_counter_invariant (hub : Hub) (sched : List Action) (s : State)
    (hs : sendMessages hub sched = some s) :
    (sendMessagesInit hub).totalBatches = 0
      ∧ s.totalBatches = (s.tasks.countP Task.counted : Nat)
      ∧ (∀ t ∈ s.tasks, t.counted = true →
            t.sentOk = true ∧ hub.SendBatch s.ctx t.batch = none)
      ∧ s.totalBatches ≤ (s.tasks.countP Task.sentOk : Nat)
      ∧ s.tasks.countP Task.sentOk ≤ 10
      ∧ 0 ≤ s.totalBatches
      ∧ s.totalBatches ≤ 10
      ∧ (∀ a s', step s a = some s' →
            s'.totalBatches = s.totalBatches
              ∨ (s'.totalBatches = s.totalBatches + 1
                  ∧ ∃ k t, a = .task k ∧ s.tasks[k]? = some t ∧ t.pc = .l66
                      ∧ s'.tasks[k]? = some { t with pc := .l67 }
                      ∧ hub.SendBatch s.ctx t.batch = none)) := by
  have h := inv_sendMessages hub sched s hs
  have hlen : s.batches.length = 10 := by rw [(h.env hub).2.2.2]; exact generate_spec.2.2
  obtain ⟨hc1, hc2⟩ := h.counter_le
  rw [hlen] at hc2
  have hcnt := h.cnt_eq
  refine ⟨by simp only [sendMessagesInit], hcnt, ?_, hc1, hc2, by omega, by omega, ?_⟩
  · intro t ht hc
    have hok := t.sentOk_of_counted hc
    refine ⟨hok, ?_⟩
    rw [← (h.env hub).1]
    exact h.err_ok t ht hok
  · intro a s' hstep
    have := step_counter h a hstep
    rw [(h.env hub).1] at this
    exact this

/-- Witness for C7: after the first goroutine has called `wg.Done()` on a hub that
accepts every batch, the counter is between 0 and 10. -/
theorem C7_counter_invariant_witness :
    sendMessages okHub firstDone = some firstDoneState
      ∧ 0 ≤ firstDoneState.totalBatches
      ∧ firstDoneState.totalBatches ≤ 10 :=
  have h := C7_counter_invariant okHub firstDone firstDoneState firstDone_runs
  ⟨firstDone_runs, h.2.2.2.2.2.1, h.2.2.2.2.2.2.1⟩

/-- C8: two runs of `sendMessages`, on any two hubs and under any two schedules, work
on the same batch set; in each the `testId` values are 0, 1, ..., 8799 from the
start; the cursor left by the first run is 8800 and the second run does not continue
from it: 8800 is not among its ids and its first id is 0. -/
theorem C8_generate_is_per_run (hub1 hub2 : Hub) (sched1 sched2 : List Action)
    (s1 s2 : State) (h1 : sendMessages hub1 sched1 = some s1)
    (h2 : sendMessages hub2 sched2 = some s2) :
    (sendMessagesInit hub1).batches = (sendMessagesInit hub2).batches
      ∧ s1.batches = (sendMessagesInit hub1).batches
      ∧ s2.batches = s1.batches
      ∧ (allEvents s1.batches).map Event.testId
          = (List.range 8800).map (fun (n : Nat) => some (n : Int))
      ∧ (allEvents s2.batches).map Event.testId
          = (List.range 8800).map (fun (n : Nat) => some (n : Int))
      ∧ s1.nextTestId = 8800
      ∧ some s1.nextTestId ∉ (allEvents s2.batches).map Event.testId
      ∧ ((allEvents s2.batches).map Event.testId)[0]? = some (some 0) := by
  have i1 := inv_sendMessages hub1 sched1 s1 h1
  have i2 := inv_sendMessages hub2 sched2 s2 h2
  have e1 := (i1.env hub1).2.2.2
  have e2 := (i2.env hub2).2.2.2
  have hn : s1.nextTestId = 8800 :=
    (i1.next_eq.trans (init_nextTestId hub1)).trans generate_spec.2.1
  refine ⟨(init_batches hub1).trans (init_batches hub2).symm, (i1.env hub1).2.2.1,
    e2.trans e1.symm, ?_, ?_, hn, ?_, ?_⟩
  · rw [e1]; exact generate_ids_flat
  · rw [e2]; exact generate_ids_flat
  · rw [e2, generate_ids_flat, hn, mem_ids_iff]
    omega
  · rw [e2, generate_ids_flat, List.getElem?_map, List.getElem?_range (by norm_num)]
    rfl

/-- Witness for C8: a complete run on a hub that accepts every batch and a run on a
hub that rejects every batch work on the same batch set. -/
theorem C8_generate_is_per_run_witness :
    sendMessages okHub fullRun = some fullRunState
      ∧ sendMessages throttledHub launchAll = some launchedState
      ∧ launchedState.batches = fullRunState.batches
      ∧ fullRunState.nextTestId = 8800
      ∧ ((allEvents launchedState.batches).map Event.testId)[0]? = some (some 0) :=
  have h := C8_generate_is_per_run okHub throttledHub fullRun launchAll fullRunState
    launchedState fullRun_runs launched_runs
  ⟨fullRun_runs, launched_runs, h.2.2.1, h.2.2.2.2.2.1, h.2.2.2.2.2.2.2⟩

set_option maxRecDepth 100000 in
theorem launchAll_runs (hub : Hub) :
    ∃ s, sendMessages hub launchAll = some s ∧ s.main = .wait ∧ s.sent = [] := by
  have h1 : (sendMessages hub launchAll).isSome = true := rfl
  have h2 : (sendMessages hub launchAll).map (fun s => s.main) = some MainPc.wait := rfl
  have h3 : (sendMessages hub launchAll).map (fun s => s.sent) = some [] := rfl
  cases hr : sendMessages hub launchAll with
  | none => rw [hr] at h1; cases h1
  | some s =>
    rw [hr] at h2 h3
    simp only [Option.map_some', Option.some.injEq] at h2 h3
    exact ⟨s, rfl, h2, h3⟩

/-- C9: for every hub, the schedule that lets the main goroutine run alone launches
10 goroutines, goroutine `k` with batch `k`, before any send. In every reachable state
the goroutines launched so far were given, in order, the first batches of the batch
set (goroutine `k` has index `k` and batch `k`), there are at most 10 of them, every
call of `SendBatch` was made with the one context created with a two-minute timeout,
there is one call per goroutine that has passed line 59, and no batch was passed
twice; once `wg.Wait()` has returned, 10 goroutines were launched, 10 calls were made
and the batches passed to `SendBatch` are, as a multiset, the batch set. A run that
has ended either ended in `log.Fatalf` or is past `wg.Wait()`; when every send
succeeds every run can be continued to an end, and at that end `wg.Wait()` has
returned, 10 goroutines have been launched, each with its own batch, `SendBatch` has
been called 10 times, each time with the one context, and the batches passed are, as
a multiset, the batch set. -/
theorem C9_dispatch_covers_batches (hub : Hub) (sched : List Action) (s : State)
    (hs : sendMessages hub sched = some s) :
    (∃ l, sendMessages hub launchAll = some l ∧ l.tasks.length = 10
        ∧ l.tasks.map Task.batch = generate.1 ∧ l.tasks.map Task.idx = List.range 10
        ∧ l.sent = [])
      ∧ s.batches = generate.1
      ∧ s.tasks.map Task.batch = s.batches.take s.tasks.length
      ∧ s.tasks.map Task.idx = List.range s.tasks.length
      ∧ s.tasks.length ≤ 10
      ∧ (∀ x ∈ s.sent, x.1 = { timeout := Minute * 2 })
      ∧ s.sent.length = s.tasks.countP Task.hasSent
      ∧ (s.sent.map Prod.snd).Subperm s.batches
      ∧ (s.sent.map Prod.snd).Nodup
      ∧ (s.main.pastWait = true →
            s.tasks.length = 10 ∧ s.sent.length = 10
              ∧ List.Perm (s.sent.map Prod.snd) s.batches)
      ∧ (s.stuck →
            (∃ e, s.status = .fatal ("ERROR sending batch: " ++ e))
              ∨ s.main.pastWait = true)
      ∧ ((∀ b ∈ (sendMessagesInit hub).batches,
              hub.SendBatch (sendMessagesInit hub).ctx b = none) →
            ∃ rest s', sendMessages hub (sched ++ rest) = some s' ∧ s'.stuck
              ∧ s'.status = .running
              ∧ s'.main.pastWait = true
              ∧ s'.tasks.length = 10
              ∧ s'.tasks.map Task.batch = generate.1
              ∧ s'.sent.length = 10
              ∧ (∀ x ∈ s'.sent, x.1 = { timeout := Minute * 2 })
              ∧ List.Perm (s'.sent.map Prod.snd) generate.1) := by
  have hreach : ∀ (sch : List Action) (st : State), sendMessages hub sch = some st →
      st.batches = generate.1
        ∧ (∀ x ∈ st.sent, x.1 = { timeout := Minute * 2 })
        ∧ (st.main.pastWait = true →
            st.tasks.length = 10 ∧ st.sent.length = 10
              ∧ List.Perm (st.sent.map Prod.snd) st.batches
              ∧ st.tasks.map Task.batch = st.batches) := by
    intro sch st hst
    have h := inv_sendMessages hub sch st hst
    have hb := (h.env hub).2.2.2
    have hlen : st.batches.length = 10 := by rw [hb]; exact generate_spec.2.2
    refine ⟨hb, ?_, ?_⟩
    · intro x hx
      rw [h.sent_ctx x hx]
      exact h.ctx_eq.trans (init_ctx hub)
    · intro hp
      have hperm := h.sent_perm_of_pastWait hp
      have hl := hperm.length_eq
      rw [List.length_map, hlen] at hl
      exact ⟨(h.pastWait_length hp).trans hlen, hl, hperm, h.tasks_all (h.pastWait_length hp)⟩
  have h := inv_sendMessages hub sched s hs
  obtain ⟨hb, hctx, hpw⟩ := hreach sched s hs
  have hlen : s.batches.length = 10 := by rw [hb]; exact generate_spec.2.2
  have hle := h.length_le
  refine ⟨?_, hb, h.tasks_batch, h.tasks_idx, by omega, hctx, h.sent_length, h.sent_subperm,
    ?_, ?_, ?_, ?_⟩
  · obtain ⟨l, hl, hm, hsent⟩ := launchAll_runs hub
    have hi := inv_sendMessages hub launchAll l hl
    have hlb := (hi.env hub).2.2.2
    have hll : l.tasks.length = l.batches.length :=
      hi.main_rest (by intro i hc; rw [hm] at hc; cases hc)
        (by intro i b hc; rw [hm] at hc; cases hc)
    have h10 : l.tasks.length = 10 := by rw [hll, hlb]; exact generate_spec.2.2
    refine ⟨l, hl, h10, ?_, ?_, hsent⟩
    · rw [hi.tasks_all hll, hlb]
    · rw [hi.tasks_idx, h10]
  · obtain ⟨l, hp, hsub⟩ := h.sent_subperm
    have hnd : s.batches.Nodup := by rw [hb]; exact generate_nodup
    exact hp.nodup (hnd.sublist hsub)
  · intro hp
    obtain ⟨h1, h2, h3, _⟩ := hpw hp
    exact ⟨h1, h2, h3⟩
  · intro hst
    rcases stuck_cases h hst with ⟨msg, hm⟩ | ⟨_, ⟨v, hv⟩, _⟩
    · obtain ⟨t, _, e, _, he⟩ := h.fatal_msg msg hm
      exact Or.inl ⟨e, by rw [hm, he]⟩
    · exact Or.inr (by rw [hv]; rfl)
  · intro hok
    obtain ⟨rest, s', hr, hst⟩ := sendMessages_completion hub sched s hs
    have h' := inv_sendMessages hub _ s' hr
    have hres := (ok_stuck_result hub h' hok hst).1
    have hp := (result_pastWait s' _ hres).2
    obtain ⟨hb', hctx', hpw'⟩ := hreach _ s' hr
    obtain ⟨h1, h2, h3, h4⟩ := hpw' hp
    rw [hb'] at h3 h4
    exact ⟨rest, s', hr, hst, h'.running_of_ok (h'.ok_transfer hub hok), hp, h1, h4, h2,
      hctx', h3⟩

set_option maxRecDepth 100000 in
/-- Witness for C9: in the complete run `fullRun` on a hub that accepts every batch,
`wg.Wait()` has returned, 10 goroutines were launched, `SendBatch` was called 10
times, each time with the two-minute context, and the batches passed are, as a
multiset, the batch set. -/
theorem C9_dispatch_covers_batches_witness :
    sendMessages okHub fullRun = some fullRunState
      ∧ fullRunState.main.pastWait = true
      ∧ fullRunState.tasks.length = 10
      ∧ fullRunState.sent.length = 10
      ∧ (∀ x ∈ fullRunState.sent, x.1 = { timeout := Minute * 2 })
      ∧ List.Perm (fullRunState.sent.map Prod.snd) fullRunState.batches := by
  have h := C9_dispatch_covers_batches okHub fullRun fullRunState fullRun_runs
  have hp : fullRunState.main.pastWait = true := by decide
  have hq := h.2.2.2.2.2.2.2.2.2.1 hp
  exact ⟨fullRun_runs, hp, hq.1, hq.2.1, h.2.2.2.2.2.1, hq.2.2⟩

end Throttling
